import Mathlib

/-!
Shallow embedding of the core of evsan/secret-server-task (storage.go,
schema.sql): the `Secret` entity with its validator `NewSecret`, the
availability predicate `Secret.IsAvailable`, the in-memory `Storage`
implementation (`memStorage`) and the PostgreSQL implementation
(`pgStorage`).

Modelling conventions:
- `time.Time` is modelled as `Nat` nanoseconds, with `0` playing the role
  of Go's zero `time.Time` (`IsZero`); `t.After u` is `u < t`.
  The nullable `expires_at` column round-trips through `pgSecret.ToSecret`
  exactly as "NULL iff the zero time", so the table rows are modelled with
  the same `Secret` record, `ExpiresAt = 0` standing for SQL NULL.
- Go `int` is modelled as `Int` (the arithmetic performed never overflows
  for the value ranges the program handles).
- Nondeterministic inputs are passed explicitly: the UUID-derived hash of
  `GenHashKey` and the current time `time.Now()` become parameters.
- `sync.Map` and the `secret` table are both modelled as association
  lists `Table` with `mapLoad` / `mapStore` / `mapDelete` having the
  observable behaviour of the Go map and of keyed SQL row access.
- Go's `(Secret, error)` returns become `Secret × Option Err`
  (`none` = nil error), keeping the returned `Secret` value observable
  also on error paths, exactly as in Go.
- Sequential semantics: the mutex / transaction machinery serialises the
  operations, so each `Store`/`Get` is a function from state to state.
  The check-lock-check in `memStorage.Get` collapses to a single
  availability check (both checks read the same state here); injected
  infrastructure failures of the PostgreSQL driver are modelled by the
  explicit fault oracle `PgFaults`.
-/

namespace SecretServer

/-- Errors of storage.go lines 18-23. The spec's names map as:
`InvalidTTL` = `invalidExpireAfter` (ErrInvalidExpireAfter),
`InvalidViewCount` = `invalidExpireAfterViews` (ErrInvalidExpireAfterViews),
`InvalidContent` = `emptySecret` (ErrEmptySecret),
`NotAvailable` = `secretNotAvailable` (ErrSecretNotAvailable).
`dbError` stands for any error produced by the database driver (such as
`sql.ErrNoRows` or a connection failure); the Go package defines no
further error values of its own. -/
inductive Err where
  | invalidExpireAfter
  | invalidExpireAfterViews
  | emptySecret
  | secretNotAvailable
  | dbError (code : Nat)
  deriving DecidableEq

/-- Time instants, in nanoseconds; `0` is Go's zero `time.Time`. -/
abbrev Time := Nat

/-- Nanoseconds in `time.Minute`. -/
def minuteNs : Nat := 60000000000

/-- The `Secret` struct (storage.go lines 26-32). -/
structure Secret where
  Hash : String
  SecretText : String
  CreatedAt : Time
  ExpiresAt : Time
  RemainingViews : Int
  deriving DecidableEq

/-- Go's zero value `Secret{}`. -/
def Secret.zero : Secret :=
  { Hash := "", SecretText := "", CreatedAt := 0, ExpiresAt := 0,
    RemainingViews := 0 }

/-- storage.go lines 34-36:
`(s.ExpiresAt.IsZero() || s.ExpiresAt.After(time.Now())) && s.RemainingViews > 0`,
with `time.Now()` passed as `now`. -/
def Secret.IsAvailable (s : Secret) (now : Time) : Bool :=
  (decide (s.ExpiresAt = 0) || decide (now < s.ExpiresAt))
    && decide (0 < s.RemainingViews)

/-- `NewSecret` (storage.go lines 45-69). The generated `GenHashKey()`
value and `time.Now()` are the parameters `hash` and `now`. Go builds
`result` field by field but returns `Secret{}` alongside every error, so
only the fully validated record ever escapes. -/
def NewSecret (hash : String) (now : Time) (secret : String)
    (expireAfterViews expireAfter : Int) : Secret × Option Err :=
  if secret = "" then (Secret.zero, some .emptySecret)
  else if expireAfterViews < 1 then (Secret.zero, some .invalidExpireAfterViews)
  else if expireAfter < 0 then (Secret.zero, some .invalidExpireAfter)
  else
    ({ Hash := hash, SecretText := secret, CreatedAt := now,
       ExpiresAt := if 0 < expireAfter then now + expireAfter.toNat * minuteNs else 0,
       RemainingViews := expireAfterViews }, none)

/-- Keyed state shared by both backends: the in-memory `sync.Map` of
`memStorage` and the `secret` table of `pgStorage` (primary key `id`). -/
abbrev Table := List (String × Secret)

/-- Lookup: `sync.Map.Load` / `SELECT ... WHERE id=$1`. -/
def mapLoad : Table → String → Option Secret
  | [], _ => none
  | p :: t, k => if p.1 = k then some p.2 else mapLoad t k

/-- Removal: `sync.Map.Delete` / `DELETE FROM secret WHERE id=$1`. -/
def mapDelete : Table → String → Table
  | [], _ => []
  | p :: t, k => if p.1 = k then mapDelete t k else p :: mapDelete t k

/-- Keyed write: `sync.Map.Store` / the row update. -/
def mapStore (st : Table) (k : String) (s : Secret) : Table :=
  (k, s) :: mapDelete st k

/-- `memStorage.Store` (storage.go lines 101-112): build via `NewSecret`,
propagate its error verbatim, otherwise insert under the generated hash. -/
def memStore (st : Table) (hash : String) (now : Time) (secret : String)
    (expireAfterViews expireAfter : Int) : Table × (Secret × Option Err) :=
  match NewSecret hash now secret expireAfterViews expireAfter with
  | (_, some e) => (st, (Secret.zero, some e))
  | (s, none) => (mapStore st s.Hash s, (s, none))

/-- `memStorage.Get` (storage.go lines 115-140). Missing key fails with
`ErrSecretNotAvailable`; an available record has its view count
decremented in place and the post-decrement copy is returned; an
unavailable record is deleted from the map and the call fails with
`ErrSecretNotAvailable`. The check-lock-check of the source reads the
same state twice here, so it is a single availability test. -/
def memGet (st : Table) (key : String) (now : Time) :
    Table × (Secret × Option Err) :=
  match mapLoad st key with
  | none => (st, (Secret.zero, some .secretNotAvailable))
  | some s =>
    if s.IsAvailable now then
      (mapStore st key { s with RemainingViews := s.RemainingViews - 1 },
       ({ s with RemainingViews := s.RemainingViews - 1 }, none))
    else
      (mapDelete st key, (Secret.zero, some .secretNotAvailable))

/-- Fault oracle for the PostgreSQL driver inside one `pgStorage` call:
`none` means the corresponding database operation succeeds, `some e` that
it fails with the driver error `e`. `beginErr` is `db.Beginx`, `selectErr`
the `SELECT ... FOR UPDATE` (other than "no rows", which the table lookup
itself produces), `updateErr` the decrementing `UPDATE`, `deleteErr` the
`DELETE`, `commitErr` the `tx.Commit`. -/
structure PgFaults where
  beginErr : Option Err
  selectErr : Option Err
  updateErr : Option Err
  deleteErr : Option Err
  commitErr : Option Err
  deriving DecidableEq

/-- A fault-free call: every database operation succeeds. -/
def noFaults : PgFaults :=
  { beginErr := none, selectErr := none, updateErr := none,
    deleteErr := none, commitErr := none }

/-- `pgStorage.Store` (storage.go lines 168-187): build via `NewSecret`,
propagate its error verbatim; then `INSERT` the row, surfacing any driver
error `insertErr` as-is. A duplicate-key constraint violation is one
possible `insertErr`; under the fresh-UUID hash it does not occur, and the
success case is modelled as the keyed write. -/
def pgStore (insertErr : Option Err) (st : Table) (hash : String)
    (now : Time) (secret : String) (expireAfterViews expireAfter : Int) :
    Table × (Secret × Option Err) :=
  match NewSecret hash now secret expireAfterViews expireAfter with
  | (_, some e) => (st, (Secret.zero, some e))
  | (s, none) =>
    match insertErr with
    | some e => (st, (Secret.zero, some e))
    | none => (mapStore st s.Hash s, (s, none))

/-- Body of `pgStorage.Get` (storage.go lines 212-237), i.e. everything
after `Beginx` and before the deferred function runs: the `SELECT ... FOR
UPDATE` (a missing row is the driver error `sql.ErrNoRows`, modelled as
`dbError 0`), the availability test, and either the decrementing `UPDATE`
or the `DELETE`. Returns the transaction's pending table, the named
return `secret` and the named return `err` as left by the body. -/
def pgGetBody (f : PgFaults) (st : Table) (key : String) (now : Time) :
    Table × Secret × Option Err :=
  match f.selectErr with
  | some e => (st, Secret.zero, some e)
  | none =>
    match mapLoad st key with
    | none => (st, Secret.zero, some (Err.dbError 0))
    | some row =>
      if row.IsAvailable now then
        match f.updateErr with
        | some e => (st, Secret.zero, some e)
        | none =>
          (mapStore st key { row with RemainingViews := row.RemainingViews - 1 },
           { row with RemainingViews := row.RemainingViews - 1 }, none)
      else
        match f.deleteErr with
        | some e => (st, Secret.zero, some e)
        | none => (mapDelete st key, Secret.zero, some Err.secretNotAvailable)

/-- The deferred function of `pgStorage.Get` (storage.go lines 196-210):
if the body left an error other than `ErrSecretNotAvailable`, roll back
(the pending table changes are discarded, `orig` is kept) and coerce the
error to `ErrSecretNotAvailable`; otherwise commit, and a commit failure
again discards the pending changes and sets `ErrSecretNotAvailable`. The
named return `secret` is never touched by the deferred function. -/
def pgFinish (f : PgFaults) (orig : Table) (r : Table × Secret × Option Err) :
    Table × (Secret × Option Err) :=
  match r with
  | (tbl, s, none) =>
    match f.commitErr with
    | some _ => (orig, (s, some Err.secretNotAvailable))
    | none => (tbl, (s, none))
  | (tbl, s, some e) =>
    if e = Err.secretNotAvailable then
      match f.commitErr with
      | some _ => (orig, (s, some Err.secretNotAvailable))
      | none => (tbl, (s, some e))
    else (orig, (s, some Err.secretNotAvailable))

/-- `pgStorage.Get` (storage.go lines 189-237): a `Beginx` failure returns
`ErrSecretNotAvailable` immediately; otherwise the body runs inside the
transaction and the deferred function decides commit/rollback and the
final error. -/
def pgGet (f : PgFaults) (st : Table) (key : String) (now : Time) :
    Table × (Secret × Option Err) :=
  match f.beginErr with
  | some _ => (st, (Secret.zero, some Err.secretNotAvailable))
  | none => pgFinish f st (pgGetBody f st key now)

/-! Observable behaviour of the keyed state. -/

theorem mapLoad_nil (k : String) : mapLoad [] k = none := rfl

theorem mapLoad_mapDelete_self (st : Table) (k : String) :
    mapLoad (mapDelete st k) k = none := by
  induction st with
  | nil => rfl
  | cons a t ih =>
    by_cases h : a.1 = k
    · simpa [mapDelete, h] using ih
    · simpa [mapDelete, mapLoad, h] using ih

theorem mapLoad_mapDelete_ne (st : Table) (k k' : String) (h : k' ≠ k) :
    mapLoad (mapDelete st k) k' = mapLoad st k' := by
  have hkk : ¬ k = k' := fun hh => h hh.symm
  induction st with
  | nil => rfl
  | cons a t ih =>
    by_cases ha : a.1 = k
    · have hb : ¬ a.1 = k' := by rw [ha]; exact hkk
      simpa [mapDelete, mapLoad, ha, hb, hkk, h] using ih
    · by_cases hb : a.1 = k'
      · simp [mapDelete, mapLoad, ha, hb, hkk, h]
      · simpa [mapDelete, mapLoad, ha, hb, hkk, h] using ih

theorem mapLoad_mapStore_self (st : Table) (k : String) (s : Secret) :
    mapLoad (mapStore st k s) k = some s := by
  simp [mapLoad, mapStore]

theorem mapLoad_mapStore_ne (st : Table) (k k' : String) (s : Secret)
    (h : k' ≠ k) : mapLoad (mapStore st k s) k' = mapLoad st k' := by
  have hk : ¬ (k = k') := fun hh => h hh.symm
  simp only [mapStore, mapLoad, hk, if_false]
  exact mapLoad_mapDelete_ne st k k' h

/-! Branch equations for `memGet`. -/

theorem memGet_absent (st : Table) (k : String) (now : Time)
    (h : mapLoad st k = none) :
    memGet st k now = (st, (Secret.zero, some .secretNotAvailable)) := by
  simp [memGet, h]

theorem memGet_avail (st : Table) (k : String) (now : Time) (s : Secret)
    (h : mapLoad st k = some s) (ha : s.IsAvailable now = true) :
    memGet st k now =
      (mapStore st k { s with RemainingViews := s.RemainingViews - 1 },
       ({ s with RemainingViews := s.RemainingViews - 1 }, none)) := by
  simp [memGet, h, ha]

theorem memGet_unavail (st : Table) (k : String) (now : Time) (s : Secret)
    (h : mapLoad st k = some s) (ha : s.IsAvailable now = false) :
    memGet st k now = (mapDelete st k, (Secret.zero, some .secretNotAvailable)) := by
  simp [memGet, h, ha]

/-! Branch facts for the transaction body and the deferred function. -/

theorem pgGetBody_err_zero (f : PgFaults) (st : Table) (k : String)
    (now : Time) (e : Err) (h : (pgGetBody f st k now).2.2 = some e) :
    (pgGetBody f st k now).2.1 = Secret.zero := by
  rcases hsel : f.selectErr with _ | e'
  · rcases hl : mapLoad st k with _ | row
    · simp [pgGetBody, hsel, hl]
    · by_cases ha : row.IsAvailable now = true
      · rcases hu : f.updateErr with _ | e''
        · simp [pgGetBody, hsel, hl, ha, hu] at h
        · simp [pgGetBody, hsel, hl, ha, hu]
      · rcases hd : f.deleteErr with _ | e''
        · simp [pgGetBody, hsel, hl, ha, hd]
        · simp [pgGetBody, hsel, hl, ha, hd]
  · simp [pgGetBody, hsel]

theorem pgGetBody_success (f : PgFaults) (st : Table) (k : String)
    (now : Time) (h : (pgGetBody f st k now).2.2 = none) :
    ∃ row, mapLoad st k = some row ∧ row.IsAvailable now = true ∧
      pgGetBody f st k now =
        (mapStore st k { row with RemainingViews := row.RemainingViews - 1 },
         { row with RemainingViews := row.RemainingViews - 1 }, none) := by
  rcases hsel : f.selectErr with _ | e'
  · rcases hl : mapLoad st k with _ | row
    · simp [pgGetBody, hsel, hl] at h
    · by_cases ha : row.IsAvailable now = true
      · rcases hu : f.updateErr with _ | e''
        · exact ⟨row, rfl, ha, by simp [pgGetBody, hsel, hl, ha, hu]⟩
        · simp [pgGetBody, hsel, hl, ha, hu] at h
      · rcases hd : f.deleteErr with _ | e''
        · simp [pgGetBody, hsel, hl, ha, hd] at h
        · simp [pgGetBody, hsel, hl, ha, hd] at h
  · simp [pgGetBody, hsel] at h

theorem pgGetBody_table (f : PgFaults) (st : Table) (k : String)
    (now : Time) :
    (pgGetBody f st k now).1 = st ∨
    (∃ row, mapLoad st k = some row ∧ row.IsAvailable now = true ∧
      (pgGetBody f st k now).1 =
        mapStore st k { row with RemainingViews := row.RemainingViews - 1 }) ∨
    (pgGetBody f st k now).1 = mapDelete st k := by
  rcases hsel : f.selectErr with _ | e'
  · rcases hl : mapLoad st k with _ | row
    · exact Or.inl (by simp [pgGetBody, hsel, hl])
    · by_cases ha : row.IsAvailable now = true
      · rcases hu : f.updateErr with _ | e''
        · exact Or.inr (Or.inl ⟨row, rfl, ha, by simp [pgGetBody, hsel, hl, ha, hu]⟩)
        · exact Or.inl (by simp [pgGetBody, hsel, hl, ha, hu])
      · rcases hd : f.deleteErr with _ | e''
        · exact Or.inr (Or.inr (by simp [pgGetBody, hsel, hl, ha, hd]))
        · exact Or.inl (by simp [pgGetBody, hsel, hl, ha, hd])
  · exact Or.inl (by simp [pgGetBody, hsel])

theorem pgFinish_err (f : PgFaults) (orig : Table)
    (r : Table × Secret × Option Err) (e : Err)
    (h : (pgFinish f orig r).2.2 = some e) : e = .secretNotAvailable := by
  rcases r with ⟨tbl, s, _ | e'⟩ <;>
    rcases hc : f.commitErr with _ | e'' <;>
    simp only [pgFinish, hc] at h <;>
    (try split_ifs at h with he) <;>
    simp_all

theorem pgFinish_secret (f : PgFaults) (orig : Table)
    (r : Table × Secret × Option Err) : (pgFinish f orig r).2.1 = r.2.1 := by
  rcases r with ⟨tbl, s, _ | e'⟩ <;>
    rcases hc : f.commitErr with _ | e'' <;>
    simp only [pgFinish, hc] <;>
    (try split_ifs with he) <;>
    simp_all

theorem pgFinish_none (f : PgFaults) (orig : Table)
    (r : Table × Secret × Option Err)
    (h : (pgFinish f orig r).2.2 = none) :
    r.2.2 = none ∧ pgFinish f orig r = (r.1, (r.2.1, none)) := by
  rcases r with ⟨tbl, s, _ | e'⟩ <;>
    rcases hc : f.commitErr with _ | e'' <;>
    simp only [pgFinish, hc] at h ⊢ <;>
    (try split_ifs at h ⊢ with he) <;>
    simp_all

theorem pgFinish_table (f : PgFaults) (orig : Table)
    (r : Table × Secret × Option Err) :
    (pgFinish f orig r).1 = orig ∨ (pgFinish f orig r).1 = r.1 := by
  rcases r with ⟨tbl, s, _ | e'⟩ <;>
    rcases hc : f.commitErr with _ | e''
  · exact Or.inr (by simp [pgFinish, hc])
  · exact Or.inl (by simp [pgFinish, hc])
  · by_cases he : e' = Err.secretNotAvailable
    · exact Or.inr (by simp [pgFinish, hc, he])
    · exact Or.inl (by simp [pgFinish, hc, he])
  · exact Or.inl (by by_cases he : e' = Err.secretNotAvailable <;> simp [pgFinish, hc, he])

/-- The record built by the success path of `NewSecret` (storage.go lines
46-68) for hash `hash` and creation time `now`. -/
def mkSecret (hash : String) (now : Time) (secret : String)
    (views ttl : Int) : Secret :=
  { Hash := hash, SecretText := secret, CreatedAt := now,
    ExpiresAt := if 0 < ttl then now + ttl.toNat * minuteNs else 0,
    RemainingViews := views }

theorem newSecret_valid (hash : String) (now : Time) (sec : String)
    (v t : Int) (hs : sec ≠ "") (hv : ¬ v < 1) (ht : ¬ t < 0) :
    NewSecret hash now sec v t = (mkSecret hash now sec v t, none) := by
  simp [NewSecret, mkSecret, hs, hv, ht]

theorem mkSecret_available_now (hash : String) (now : Time) (sec : String)
    (v t : Int) (hv : 0 < v) :
    (mkSecret hash now sec v t).IsAvailable now = true := by
  by_cases ht : 0 < t
  · have ht1 : 1 ≤ t.toNat := by omega
    simp [mkSecret, Secret.IsAvailable, hv, ht, minuteNs]
  · simp [mkSecret, Secret.IsAvailable, hv, ht]

/-! Fault-free behaviour of `pgStorage.Get`, mirroring the `memGet`
branch equations. -/

theorem pgGet_absent (st : Table) (k : String) (now : Time)
    (h : mapLoad st k = none) :
    pgGet noFaults st k now = (st, (Secret.zero, some .secretNotAvailable)) := by
  simp [pgGet, pgGetBody, pgFinish, noFaults, h]

theorem pgGet_avail (st : Table) (k : String) (now : Time) (s : Secret)
    (h : mapLoad st k = some s) (ha : s.IsAvailable now = true) :
    pgGet noFaults st k now =
      (mapStore st k { s with RemainingViews := s.RemainingViews - 1 },
       ({ s with RemainingViews := s.RemainingViews - 1 }, none)) := by
  simp [pgGet, pgGetBody, pgFinish, noFaults, h, ha]

theorem pgGet_unavail (st : Table) (k : String) (now : Time) (s : Secret)
    (h : mapLoad st k = some s) (ha : s.IsAvailable now = false) :
    pgGet noFaults st k now =
      (mapDelete st k, (Secret.zero, some .secretNotAvailable)) := by
  simp [pgGet, pgGetBody, pgFinish, noFaults, h, ha]

/-! Concrete sample values used by witnesses and counterexamples. -/

/-- A sample handle. -/
def hK : String := "k"

/-- A sample secret text. -/
def txtX : String := "x"

/-- A never-expiring secret with no views left. -/
def sExhausted : Secret :=
  { Hash := hK, SecretText := txtX, CreatedAt := 0, ExpiresAt := 0,
    RemainingViews := 0 }

/-- A never-expiring secret with one view left. -/
def sOneView : Secret :=
  { Hash := hK, SecretText := txtX, CreatedAt := 0, ExpiresAt := 0,
    RemainingViews := 1 }

/-- A never-expiring secret with two views left. -/
def sTwoViews : Secret :=
  { Hash := hK, SecretText := txtX, CreatedAt := 0, ExpiresAt := 0,
    RemainingViews := 2 }

/-! Claims. -/

/-- C1, counterexample: the claim says a handle absent from the store
fails with a `NotFound` error distinct from `NotAvailable`. On both
backends, `Get` on the empty store returns `ErrSecretNotAvailable`
itself — the very `NotAvailable` error — so the returned error is not
distinct from `NotAvailable` (the package defines no `NotFound` error at
all). -/
theorem C1_notfound_counterexample :
    (memGet [] hK 0).2.2 = some Err.secretNotAvailable ∧
    (pgGet noFaults [] hK 0).2.2 = some Err.secretNotAvailable := by
  constructor <;> rfl

/-- C1, amended: for every handle that is not present in the store,
`Get(handle)` fails, but with `ErrSecretNotAvailable` — the same error
used for expired/exhausted secrets — on both the in-memory and the
relational backend; no distinct `NotFound` error exists. -/
theorem C1_absent_get_fails (st : Table) (k : String) (now : Time)
    (h : mapLoad st k = none) :
    (memGet st k now).2.2 = some Err.secretNotAvailable ∧
    (pgGet noFaults st k now).2.2 = some Err.secretNotAvailable := by
  refine ⟨?_, ?_⟩
  · rw [memGet_absent st k now h]
  · rw [pgGet_absent st k now h]

/-- C1, witness for the amended theorem at the empty store. -/
theorem C1_absent_get_fails_witness :
    mapLoad [] hK = none ∧
    (memGet [] hK 5).2.2 = some Err.secretNotAvailable ∧
    (pgGet noFaults [] hK 5).2.2 = some Err.secretNotAvailable := by
  have hthm := C1_absent_get_fails [] hK 5 rfl
  exact ⟨rfl, hthm.1, hthm.2⟩

/-- C2: `IsAvailable` returns true iff (`ExpiresAt` is the zero value or
later than the current time) and `RemainingViews > 0`. The function is a
pure predicate on the record and the clock: it returns a `Bool` without
modifying the secret, so it has no side effects. -/
theorem C2_isAvailable_iff (s : Secret) (now : Time) :
    s.IsAvailable now = true ↔
      ((s.ExpiresAt = 0 ∨ now < s.ExpiresAt) ∧ 0 < s.RemainingViews) := by
  simp [Secret.IsAvailable]

/-- C3: creation fails with `ErrEmptySecret` on empty content,
`ErrInvalidExpireAfterViews` on a view count below 1 and
`ErrInvalidExpireAfter` on a negative TTL, in exactly that fixed checking
order, identically through `NewSecret`, `memStorage.Store` and
`pgStorage.Store` (and with no other validation failure). -/
theorem C3_validation_order (hash : String) (now : Time) (sec : String)
    (v t : Int) (st : Table) (ie : Option Err) :
    (NewSecret hash now sec v t).2 =
      (if sec = "" then some Err.emptySecret
       else if v < 1 then some Err.invalidExpireAfterViews
       else if t < 0 then some Err.invalidExpireAfter
       else none) ∧
    (memStore st hash now sec v t).2.2 =
      (if sec = "" then some Err.emptySecret
       else if v < 1 then some Err.invalidExpireAfterViews
       else if t < 0 then some Err.invalidExpireAfter
       else none) ∧
    (pgStore ie st hash now sec v t).2.2 =
      (if sec = "" then some Err.emptySecret
       else if v < 1 then some Err.invalidExpireAfterViews
       else if t < 0 then some Err.invalidExpireAfter
       else ie) := by
  by_cases hs : sec = ""
  · simp [NewSecret, memStore, pgStore, hs]
  · by_cases hv : v < 1
    · simp [NewSecret, memStore, pgStore, hs, hv]
    · by_cases ht : t < 0
      · simp [NewSecret, memStore, pgStore, hs, hv, ht]
      · rcases ie with _ | e <;> simp [NewSecret, memStore, pgStore, hs, hv, ht]

/-- C4: on the in-memory backend, `Store` of a valid input followed
immediately by one `Get` on the returned handle (with at least 2
requested views, so the secret is not yet exhausted, and before any time
passes, so it is not expired) succeeds and returns the stored content
unchanged with a view count exactly one below the value given at
creation. -/
theorem C4_store_get_roundtrip (st : Table) (hash : String) (now : Time)
    (sec : String) (v t : Int) (hs : sec ≠ "") (hv : 2 ≤ v) (ht : 0 ≤ t) :
    (memStore st hash now sec v t).2.2 = none ∧
    (memStore st hash now sec v t).2.1.Hash = hash ∧
    (memGet (memStore st hash now sec v t).1 hash now).2.2 = none ∧
    (memGet (memStore st hash now sec v t).1 hash now).2.1.SecretText = sec ∧
    (memGet (memStore st hash now sec v t).1 hash now).2.1.RemainingViews = v - 1 := by
  have hv1 : ¬ v < 1 := by omega
  have ht0 : ¬ t < 0 := by omega
  have hns := newSecret_valid hash now sec v t hs hv1 ht0
  have hstore : memStore st hash now sec v t =
      (mapStore st hash (mkSecret hash now sec v t),
       (mkSecret hash now sec v t, none)) := by
    simp [memStore, hns, mkSecret]
  have hload := mapLoad_mapStore_self st hash (mkSecret hash now sec v t)
  have havail := mkSecret_available_now hash now sec v t (by omega)
  have hget := memGet_avail (mapStore st hash (mkSecret hash now sec v t))
    hash now (mkSecret hash now sec v t) hload havail
  rw [hstore, hget]
  simp [mkSecret]

/-- C4, witness: a store of two-view secret content at time 0 followed by
an immediate get. -/
theorem C4_store_get_roundtrip_witness :
    txtX ≠ "" ∧ (2 : Int) ≤ 2 ∧ (0 : Int) ≤ 0 ∧
    (memGet (memStore [] hK 0 txtX 2 0).1 hK 0).2.2 = none ∧
    (memGet (memStore [] hK 0 txtX 2 0).1 hK 0).2.1.SecretText = txtX ∧
    (memGet (memStore [] hK 0 txtX 2 0).1 hK 0).2.1.RemainingViews = 1 := by
  have hthm := C4_store_get_roundtrip [] hK 0 txtX 2 0 (by decide)
    (by decide) (by decide)
  exact ⟨by decide, by decide, by decide, hthm.2.2.1, hthm.2.2.2.1,
    hthm.2.2.2.2⟩

/-- C7: with a valid content and view count, a TTL of 0 leaves
`ExpiresAt` at the zero value and the created secret stays available at
every later clock reading (a `Get` after `Store` succeeds at an arbitrary
later time), while a positive TTL sets `ExpiresAt` to the creation time
plus that many minutes. -/
theorem C7_ttl_semantics (hash : String) (now : Time) (sec : String)
    (v t : Int) (st : Table) (now' : Time) (hs : sec ≠ "") (hv : 1 ≤ v) :
    ((NewSecret hash now sec v 0).2 = none ∧
     (NewSecret hash now sec v 0).1.ExpiresAt = 0 ∧
     (NewSecret hash now sec v 0).1.IsAvailable now' = true ∧
     (memGet (memStore st hash now sec v 0).1 hash now').2.2 = none) ∧
    (0 < t →
     (NewSecret hash now sec v t).2 = none ∧
     (NewSecret hash now sec v t).1.CreatedAt = now ∧
     (NewSecret hash now sec v t).1.ExpiresAt = now + t.toNat * minuteNs) := by
  have hv1 : ¬ v < 1 := by omega
  have h0 : ¬ (0 : Int) < 0 := by omega
  have hns0 := newSecret_valid hash now sec v 0 hs hv1 (by omega)
  constructor
  · have havail : (mkSecret hash now sec v 0).IsAvailable now' = true := by
      simp [mkSecret, Secret.IsAvailable, h0]
      omega
    have hstore : memStore st hash now sec v 0 =
        (mapStore st hash (mkSecret hash now sec v 0),
         (mkSecret hash now sec v 0, none)) := by
      simp [memStore, hns0, mkSecret]
    have hload := mapLoad_mapStore_self st hash (mkSecret hash now sec v 0)
    have hget := memGet_avail (mapStore st hash (mkSecret hash now sec v 0))
      hash now' (mkSecret hash now sec v 0) hload havail
    rw [hstore, hns0]
    exact ⟨rfl, by simp [mkSecret, h0], havail, by simp only [hget]⟩
  · intro htpos
    have hns := newSecret_valid hash now sec v t hs hv1 (by omega)
    rw [hns]
    exact ⟨rfl, rfl, by simp [mkSecret, htpos]⟩

/-- C7, witness: TTL 0 secret still readable at time 1000000, TTL 2
secret expires two minutes after creation. -/
theorem C7_ttl_semantics_witness :
    txtX ≠ "" ∧ (1 : Int) ≤ 5 ∧ (0 : Int) < 2 ∧
    (memGet (memStore [] hK 0 txtX 5 0).1 hK 1000000).2.2 = none ∧
    (NewSecret hK 0 txtX 5 2).1.ExpiresAt = 2 * 60000000000 := by
  have hthm := C7_ttl_semantics hK 0 txtX 5 2 [] 1000000 (by decide) (by decide)
  refine ⟨by decide, by decide, by decide, hthm.1.2.2.2, ?_⟩
  rw [(hthm.2 (by decide)).2.2]
  decide

/-- C10: the in-memory `Store` returns an error exactly when validation
fails (empty content, view count below 1, or negative TTL); on every
valid input it succeeds, the new secret is in the map under its generated
handle, and an immediately following `Get` on that handle finds the
record and succeeds. -/
theorem C10_memStore_iff_valid (st : Table) (hash : String) (now : Time)
    (sec : String) (v t : Int) :
    ((memStore st hash now sec v t).2.2 ≠ none ↔
      (sec = "" ∨ v < 1 ∨ t < 0)) ∧
    (sec ≠ "" → ¬ v < 1 → ¬ t < 0 →
      mapLoad (memStore st hash now sec v t).1 hash =
        some (memStore st hash now sec v t).2.1 ∧
      (memGet (memStore st hash now sec v t).1 hash now).2.2 = none) := by
  constructor
  · by_cases hs : sec = ""
    · simp [memStore, NewSecret, hs]
    · by_cases hv : v < 1
      · simp [memStore, NewSecret, hs, hv]
      · by_cases ht : t < 0
        · simp [memStore, NewSecret, hs, hv, ht]
        · simp [memStore, NewSecret, hs, hv, ht]
  · intro hs hv ht
    have hns := newSecret_valid hash now sec v t hs hv ht
    have hstore : memStore st hash now sec v t =
        (mapStore st hash (mkSecret hash now sec v t),
         (mkSecret hash now sec v t, none)) := by
      simp [memStore, hns, mkSecret]
    have hload := mapLoad_mapStore_self st hash (mkSecret hash now sec v t)
    have havail := mkSecret_available_now hash now sec v t (by omega)
    have hget := memGet_avail (mapStore st hash (mkSecret hash now sec v t))
      hash now (mkSecret hash now sec v t) hload havail
    rw [hstore]
    exact ⟨hload, by simp only [hget]⟩

/-- C10, witness: a valid store at the empty map, plus a rejected store
with view count 0. -/
theorem C10_memStore_iff_valid_witness :
    txtX ≠ "" ∧ ¬ (5 : Int) < 1 ∧ ¬ (0 : Int) < 0 ∧
    mapLoad (memStore [] hK 0 txtX 5 0).1 hK =
      some (memStore [] hK 0 txtX 5 0).2.1 ∧
    (memGet (memStore [] hK 0 txtX 5 0).1 hK 0).2.2 = none ∧
    ((memStore [] hK 0 txtX 0 7).2.2 ≠ none ↔
      (txtX = "" ∨ (0 : Int) < 1 ∨ (7 : Int) < 0)) := by
  have hthm := C10_memStore_iff_valid [] hK 0 txtX 5 0
  have hiff := (C10_memStore_iff_valid [] hK 0 txtX 0 7).1
  have hmain := hthm.2 (by decide) (by decide) (by decide)
  exact ⟨by decide, by decide, by decide, hmain.1, hmain.2, hiff⟩

/-- C5: on both backends (fault-free database operations), once the
secret held under a handle is unavailable — views exhausted or
time-expired — the `Get` discovering it fails with
`ErrSecretNotAvailable` and removes the record (map entry deleted / row
deleted), and every subsequent `Get` on that handle, at any later clock
reading, fails again and leaves the handle absent: the secret is never
resurrected. -/
theorem C5_eviction_permanent (st : Table) (k : String) (now now' : Time)
    (s : Secret) (h : mapLoad st k = some s)
    (ha : s.IsAvailable now = false) :
    ((memGet st k now).2.2 = some Err.secretNotAvailable ∧
     mapLoad (memGet st k now).1 k = none ∧
     (memGet (memGet st k now).1 k now').2.2 = some Err.secretNotAvailable ∧
     mapLoad (memGet (memGet st k now).1 k now').1 k = none) ∧
    ((pgGet noFaults st k now).2.2 = some Err.secretNotAvailable ∧
     mapLoad (pgGet noFaults st k now).1 k = none ∧
     (pgGet noFaults (pgGet noFaults st k now).1 k now').2.2 =
       some Err.secretNotAvailable ∧
     mapLoad (pgGet noFaults (pgGet noFaults st k now).1 k now').1 k = none) := by
  have hdel := mapLoad_mapDelete_self st k
  constructor
  · rw [memGet_unavail st k now s h ha]
    refine ⟨rfl, hdel, ?_, ?_⟩ <;>
      (rw [memGet_absent (mapDelete st k) k now' hdel]; try simp [hdel])
  · rw [pgGet_unavail st k now s h ha]
    refine ⟨rfl, hdel, ?_, ?_⟩ <;>
      (rw [pgGet_absent (mapDelete st k) k now' hdel]; try simp [hdel])

/-- C5, witness: an exhausted secret at its handle is evicted and stays
gone. -/
theorem C5_eviction_permanent_witness :
    mapLoad [(hK, sExhausted)] hK = some sExhausted ∧
    sExhausted.IsAvailable 0 = false ∧
    mapLoad (memGet [(hK, sExhausted)] hK 0).1 hK = none ∧
    mapLoad (pgGet noFaults [(hK, sExhausted)] hK 0).1 hK = none := by
  have hthm := C5_eviction_permanent [(hK, sExhausted)] hK 0 9 sExhausted
    (by decide) (by decide)
  exact ⟨by decide, by decide, hthm.1.2.1, hthm.2.2.1⟩

/-- C6, counterexample: the claim says no caller ever observes
`RemainingViews <= 0` as a successful result of `Get`. But reading the
last view succeeds and returns the post-decrement copy, whose
`RemainingViews` is `0 <= 0`: here a secret created with one view is read
successfully and the caller observes `RemainingViews = 0`. -/
theorem C6_observe_zero_counterexample :
    (memGet [(hK, sOneView)] hK 0).2.2 = none ∧
    (memGet [(hK, sOneView)] hK 0).2.1.RemainingViews ≤ 0 := by
  constructor <;> decide

theorem isAvailable_views_pos (s : Secret) (now : Time)
    (h : s.IsAvailable now = true) : 0 < s.RemainingViews := by
  simp [Secret.IsAvailable] at h
  exact h.2

theorem memGet_success_spec (st : Table) (k : String) (now : Time)
    (h : (memGet st k now).2.2 = none) :
    ∃ s, mapLoad st k = some s ∧ 0 < s.RemainingViews ∧
      (memGet st k now).2.1.RemainingViews = s.RemainingViews - 1 := by
  rcases hl : mapLoad st k with _ | s0
  · rw [memGet_absent st k now hl] at h
    simp at h
  · by_cases hav : s0.IsAvailable now = true
    · rw [memGet_avail st k now s0 hl hav] at h ⊢
      exact ⟨s0, rfl, isAvailable_views_pos s0 now hav, rfl⟩
    · rw [memGet_unavail st k now s0 hl (by simpa using hav)] at h
      simp at h

theorem pgGet_success_spec (f : PgFaults) (st : Table) (k : String)
    (now : Time) (h : (pgGet f st k now).2.2 = none) :
    ∃ s, mapLoad st k = some s ∧ 0 < s.RemainingViews ∧
      (pgGet f st k now).2.1.RemainingViews = s.RemainingViews - 1 := by
  rcases hb : f.beginErr with _ | eb
  · simp only [pgGet, hb] at h ⊢
    obtain ⟨hbody, heq⟩ := pgFinish_none f st (pgGetBody f st k now) h
    obtain ⟨row, hl, hav, hbodyeq⟩ := pgGetBody_success f st k now hbody
    refine ⟨row, hl, isAvailable_views_pos row now hav, ?_⟩
    rw [pgFinish_secret f st (pgGetBody f st k now), hbodyeq]
  · simp [pgGet, hb] at h

theorem memGet_views_mono (st : Table) (k k' : String) (now : Time)
    (s s' : Secret) (h : mapLoad st k' = some s)
    (h' : mapLoad (memGet st k now).1 k' = some s') :
    s'.RemainingViews ≤ s.RemainingViews ∧
      (0 ≤ s.RemainingViews → 0 ≤ s'.RemainingViews) := by
  rcases hl : mapLoad st k with _ | s0
  · rw [memGet_absent st k now hl] at h'
    rw [h] at h'
    cases h'
    exact ⟨le_refl _, fun hh => hh⟩
  · by_cases hav : s0.IsAvailable now = true
    · rw [memGet_avail st k now s0 hl hav] at h'
      by_cases hk : k' = k
      · subst hk
        rw [mapLoad_mapStore_self] at h'
        rw [h] at hl
        cases hl
        cases h'
        have hpos := isAvailable_views_pos s now hav
        constructor
        · simp
        · intro _
          simp
          omega
      · rw [mapLoad_mapStore_ne st k k' _ hk] at h'
        rw [h] at h'
        cases h'
        exact ⟨le_refl _, fun hh => hh⟩
    · rw [memGet_unavail st k now s0 hl (by simpa using hav)] at h'
      by_cases hk : k' = k
      · subst hk
        rw [mapLoad_mapDelete_self] at h'
        cases h'
      · rw [mapLoad_mapDelete_ne st k k' hk] at h'
        rw [h] at h'
        cases h'
        exact ⟨le_refl _, fun hh => hh⟩

theorem pgGet_views_mono (f : PgFaults) (st : Table) (k k' : String)
    (now : Time) (s s' : Secret) (h : mapLoad st k' = some s)
    (h' : mapLoad (pgGet f st k now).1 k' = some s') :
    s'.RemainingViews ≤ s.RemainingViews ∧
      (0 ≤ s.RemainingViews → 0 ≤ s'.RemainingViews) := by
  have htriv : mapLoad st k' = some s' →
      s'.RemainingViews ≤ s.RemainingViews ∧
        (0 ≤ s.RemainingViews → 0 ≤ s'.RemainingViews) := by
    intro hh
    rw [h] at hh
    cases hh
    exact ⟨le_refl _, fun hx => hx⟩
  rcases hb : f.beginErr with _ | eb
  · simp only [pgGet, hb] at h'
    rcases pgFinish_table f st (pgGetBody f st k now) with hT | hT
    · rw [hT] at h'
      exact htriv h'
    · rw [hT] at h'
      rcases pgGetBody_table f st k now with hB | ⟨row, hlrow, hav, hB⟩ | hB
      · rw [hB] at h'
        exact htriv h'
      · rw [hB] at h'
        by_cases hk : k' = k
        · subst hk
          rw [mapLoad_mapStore_self] at h'
          rw [h] at hlrow
          cases hlrow
          cases h'
          have hpos := isAvailable_views_pos s now hav
          constructor
          · simp
          · intro _
            simp
            omega
        · rw [mapLoad_mapStore_ne st k k' _ hk] at h'
          exact htriv h'
      · rw [hB] at h'
        by_cases hk : k' = k
        · subst hk
          rw [mapLoad_mapDelete_self] at h'
          cases h'
        · rw [mapLoad_mapDelete_ne st k k' hk] at h'
          exact htriv h'
  · simp only [pgGet, hb] at h'
    exact htriv h'

/-- C6, amended: no caller ever observes `RemainingViews < 0` as a
successful result of `Get` (the final successful read returns exactly 0);
a `Get` succeeds only when the stored count was positive and returns
exactly that count minus one; and the stored `RemainingViews` of any
handle never increases across a `Get` on either backend, never dropping
below zero. -/
theorem C6_views_monotone (st : Table) (k k' : String) (now : Time)
    (f : PgFaults) :
    ((memGet st k now).2.2 = none →
        0 ≤ (memGet st k now).2.1.RemainingViews ∧
        ∃ s, mapLoad st k = some s ∧ 0 < s.RemainingViews ∧
          (memGet st k now).2.1.RemainingViews = s.RemainingViews - 1) ∧
    ((pgGet f st k now).2.2 = none →
        0 ≤ (pgGet f st k now).2.1.RemainingViews ∧
        ∃ s, mapLoad st k = some s ∧ 0 < s.RemainingViews ∧
          (pgGet f st k now).2.1.RemainingViews = s.RemainingViews - 1) ∧
    (∀ s s', mapLoad st k' = some s →
        mapLoad (memGet st k now).1 k' = some s' →
        s'.RemainingViews ≤ s.RemainingViews ∧
          (0 ≤ s.RemainingViews → 0 ≤ s'.RemainingViews)) ∧
    (∀ s s', mapLoad st k' = some s →
        mapLoad (pgGet f st k now).1 k' = some s' →
        s'.RemainingViews ≤ s.RemainingViews ∧
          (0 ≤ s.RemainingViews → 0 ≤ s'.RemainingViews)) := by
  refine ⟨?_, ?_, ?_, ?_⟩
  · intro h
    obtain ⟨s, hl, hpos, heq⟩ := memGet_success_spec st k now h
    exact ⟨by omega, s, hl, hpos, heq⟩
  · intro h
    obtain ⟨s, hl, hpos, heq⟩ := pgGet_success_spec f st k now h
    exact ⟨by omega, s, hl, hpos, heq⟩
  · intro s s' hload hload'
    exact memGet_views_mono st k k' now s s' hload hload'
  · intro s s' hload hload'
    exact pgGet_views_mono f st k k' now s s' hload hload'

/-- C6, witness: reading a two-view secret succeeds with a non-negative
count, on both backends, and the stored count moves from 2 to 1. -/
theorem C6_views_monotone_witness :
    (memGet [(hK, sTwoViews)] hK 0).2.2 = none ∧
    0 ≤ (memGet [(hK, sTwoViews)] hK 0).2.1.RemainingViews ∧
    0 ≤ (pgGet noFaults [(hK, sTwoViews)] hK 0).2.1.RemainingViews ∧
    sOneView.RemainingViews ≤ sTwoViews.RemainingViews := by
  have hthm := C6_views_monotone [(hK, sTwoViews)] hK hK 0 noFaults
  refine ⟨by decide, (hthm.1 (by decide)).1, (hthm.2.1 (by decide)).1, ?_⟩
  exact (hthm.2.2.1 sTwoViews sOneView (by decide) (by decide)).1

/-- C8: every error `pgStorage.Get` ever returns — whatever combination
of transaction-begin, query, update/delete or commit failures occurred,
and whatever the table holds — is the single `ErrSecretNotAvailable`,
never a backend-specific error; whereas an infrastructure error hit by
`pgStorage.Store` on validated input is surfaced to the caller verbatim,
not coerced. -/
theorem C8_pg_error_collapsing (f : PgFaults) (st : Table) (k hash : String)
    (now : Time) (e e' : Err) (sec : String) (v t : Int) :
    ((pgGet f st k now).2.2 = some e → e = Err.secretNotAvailable) ∧
    (sec ≠ "" → ¬ v < 1 → ¬ t < 0 →
      (pgStore (some e') st hash now sec v t).2.2 = some e') := by
  constructor
  · intro h
    rcases hb : f.beginErr with _ | eb
    · simp only [pgGet, hb] at h
      exact pgFinish_err f st (pgGetBody f st k now) e h
    · simp [pgGet, hb] at h
      exact h.symm
  · intro hs hv ht
    simp [pgStore, newSecret_valid hash now sec v t hs hv ht]

/-- C8, witness: a `Get` on a missing row reports `ErrSecretNotAvailable`
(the underlying driver error was `sql.ErrNoRows`), while a `Store` whose
`INSERT` fails with a connection error surfaces that same driver
error. -/
theorem C8_pg_error_collapsing_witness :
    (pgGet noFaults [] hK 0).2.2 = some Err.secretNotAvailable ∧
    Err.secretNotAvailable = Err.secretNotAvailable ∧
    (pgStore (some (Err.dbError 3)) [] hK 0 txtX 1 0).2.2 =
      some (Err.dbError 3) := by
  have hthm := C8_pg_error_collapsing noFaults [] hK hK 0
    Err.secretNotAvailable (Err.dbError 3) txtX 1 0
  exact ⟨by decide, hthm.1 (by decide), hthm.2 (by decide) (by decide) (by decide)⟩

/-- C9, counterexample: the claim says every non-nil error comes with the
zero `Secret`. But when the transaction of `pgStorage.Get` reads an
available two-view secret, decrements it, and then fails at `tx.Commit`,
the deferred function sets the returned error to `ErrSecretNotAvailable`
without clearing the named return `secret`: the caller receives the
decremented, non-zero secret alongside the error. -/
theorem C9_error_zero_counterexample :
    (pgGet { beginErr := none, selectErr := none, updateErr := none,
             deleteErr := none, commitErr := some (Err.dbError 1) }
       [(hK, sTwoViews)] hK 0).2.2 = some Err.secretNotAvailable ∧
    (pgGet { beginErr := none, selectErr := none, updateErr := none,
             deleteErr := none, commitErr := some (Err.dbError 1) }
       [(hK, sTwoViews)] hK 0).2.1 ≠ Secret.zero := by
  constructor <;> decide

/-- C9, amended: whenever `NewSecret`, `memStorage.Store`,
`memStorage.Get` or `pgStorage.Store` returns a non-nil error, and
whenever `pgStorage.Get` does so other than on its commit-failure path,
the `Secret` returned alongside is the zero value — in particular a
validation failure never leaks the freshly generated handle. Only the
commit-failure of `pgStorage.Get` after a successful decrement returns a
non-zero secret with an error. -/
theorem C9_error_returns_zero (st : Table) (hash k : String) (now : Time)
    (sec : String) (v t : Int) (ie : Option Err) (f : PgFaults) :
    ((NewSecret hash now sec v t).2 ≠ none →
      (NewSecret hash now sec v t).1 = Secret.zero) ∧
    ((memStore st hash now sec v t).2.2 ≠ none →
      (memStore st hash now sec v t).2.1 = Secret.zero) ∧
    ((memGet st k now).2.2 ≠ none → (memGet st k now).2.1 = Secret.zero) ∧
    ((pgStore ie st hash now sec v t).2.2 ≠ none →
      (pgStore ie st hash now sec v t).2.1 = Secret.zero) ∧
    (f.commitErr = none → (pgGet f st k now).2.2 ≠ none →
      (pgGet f st k now).2.1 = Secret.zero) := by
  refine ⟨?_, ?_, ?_, ?_, ?_⟩
  · intro h
    by_cases hs : sec = ""
    · simp [NewSecret, hs]
    · by_cases hv : v < 1
      · simp [NewSecret, hs, hv]
      · by_cases ht : t < 0
        · simp [NewSecret, hs, hv, ht]
        · simp [NewSecret, hs, hv, ht] at h
  · intro h
    rcases hns : NewSecret hash now sec v t with ⟨s0, _ | e0⟩
    · simp [memStore, hns] at h
    · simp [memStore, hns]
  · intro h
    rcases hl : mapLoad st k with _ | s0
    · rw [memGet_absent st k now hl]
    · by_cases hav : s0.IsAvailable now = true
      · rw [memGet_avail st k now s0 hl hav] at h
        simp at h
      · rw [memGet_unavail st k now s0 hl (by simpa using hav)]
  · intro h
    rcases hns : NewSecret hash now sec v t with ⟨s0, _ | e0⟩
    · rcases ie with _ | eI
      · simp [pgStore, hns] at h
      · simp [pgStore, hns]
    · simp [pgStore, hns]
  · intro hc h
    rcases hb : f.beginErr with _ | eb
    · simp only [pgGet, hb] at h ⊢
      rcases herr : (pgGetBody f st k now).2.2 with _ | e0
      · rcases hbody : pgGetBody f st k now with ⟨tbl, s0, err0⟩
        rw [hbody] at herr
        simp at herr
        subst herr
        simp [pgFinish, hbody, hc] at h
      · rw [pgFinish_secret f st (pgGetBody f st k now)]
        exact pgGetBody_err_zero f st k now e0 herr
    · simp [pgGet, hb]

/-- C9, witness: a validation failure and a fault-free failing `Get`
both return the zero secret. -/
theorem C9_error_returns_zero_witness :
    (NewSecret hK 0 "" 5 0).2 ≠ none ∧
    (NewSecret hK 0 "" 5 0).1 = Secret.zero ∧
    noFaults.commitErr = none ∧
    (pgGet noFaults [] hK 0).2.2 ≠ none ∧
    (pgGet noFaults [] hK 0).2.1 = Secret.zero := by
  have hthm := C9_error_returns_zero [] hK hK 0 "" 5 0 none noFaults
  exact ⟨by decide, hthm.1 (by decide), by decide, by decide,
    hthm.2.2.2.2 (by decide) (by decide)⟩

end SecretServer
